import Mathlib

/-!
Shallow embedding of the banglejs-emu host bridge (src/main.rs).

The program instantiates an Espruino firmware image inside a wasm sandbox
and exposes emulated peripherals as host functions:
  * `flash`   : `vec![255u8; 1 << 23]`             (line 32)
  * `pins`    : `vec![false; 48]`, `pins[BTN1] = true` with `BTN1 = 17` (lines 16, 33-35)
  * `hwFlashRead`, `hwFlashWritePtr`, `hwGetPinValue`, `hwSetPinValue` (lines 94-177)
  * `js_handle_io` console drain loop (lines 50-67)
  * `js_push_string` console input injection (lines 261-273)
  * `get3` packed 3-bit pixel extraction inside `draw_screen` (lines 239-249)
  * the `main` lifecycle sequence (lines 275-291)

Machine integers are embedded as `Nat`/`Int`; wasm `i32` host-call arguments
are `Int` values in `[-2^31, 2^31)`.  Rust `x as usize` / `x as u64` on an
`i32` sign-extends to 64 bits; that cast is `asUsize` below.  A Rust panic
(out-of-bounds `Vec` index or slice, failed wasm memory access) and a wasm
trap both abort the current firmware call, so fallible operations return
`Option`/`Except`, with `none`/`error` standing for the fault; no peripheral
state update is produced on the fault path, matching the source, where the
panic fires before any byte of the destination is written.
-/

/-- Flash size: `vec![255u8; 1 << 23]` (main.rs line 32). -/
def FLASH_SIZE : Nat := 1 <<< 23

/-- Number of emulated pins: `vec![false; 48]` (main.rs line 33). -/
def PIN_COUNT : Nat := 48

/-- The designated button pin: `const BTN1: usize = 17` (main.rs line 16). -/
def BTN1 : Nat := 17

/-- Rust's `x as usize` (and `x as u64`) applied to an `i32` on a 64-bit
host: sign-extend to 64 bits and reinterpret as unsigned. -/
def asUsize (x : Int) : Nat := (x % (2 ^ 64 : Int)).toNat

/-- The flash store right after construction: every byte erased (0xFF). -/
def initFlash : List Nat := List.replicate FLASH_SIZE 255

/-- The pin bank right after construction: all low except `BTN1` high
(main.rs lines 33-35). -/
def initPins : List Bool := (List.replicate PIN_COUNT false).set BTN1 true

/-- Host function `hwFlashRead` (main.rs lines 94-111):
`flash.lock().unwrap()[ind as usize]`, returned widened to `i32`.
`none` is the out-of-bounds panic of the `Vec` index. -/
def hwFlashRead (flash : List Nat) (ind : Int) : Option Nat :=
  flash[asUsize ind]?

/-- The bounds-checked read of the sandbox's linear memory used by
`hwFlashWritePtr`: wasmer's `MemoryView::read(base, dst)` checks
`base + dst.len()` against the memory size and copies all-or-nothing.
Returns the `len` bytes starting at `base`. -/
def memRead (mem : List Nat) (base len : Nat) : Option (List Nat) :=
  if base + len ≤ mem.length then some ((mem.drop base).take len) else none

/-- Byte-by-byte copy of `bytes` into `flash` starting at `addr`
(the effect of filling the slice `&mut flash[addr..][..bytes.len()]`). -/
def writeBytes (flash : List Nat) (addr : Nat) (bytes : List Nat) : List Nat :=
  match bytes with
  | [] => flash
  | b :: rest => writeBytes (flash.set addr b) (addr + 1) rest

/-- Host function `hwFlashWritePtr` (main.rs lines 113-137):
`let dst = &mut flash[flash_addr as usize..][..len as usize];`
`env.data().memory_view(...).read(base as u64, dst).unwrap()`.
The two slice operations panic unless
`flash_addr as usize ≤ flash.len()` and `len as usize` fits in the rest;
the memory read traps unless the sandbox range is in bounds.  Both faults
are `none`, produced before any flash byte changes. -/
def hwFlashWritePtr (mem flash : List Nat) (flashAddr base len : Int) :
    Option (List Nat) :=
  let a := asUsize flashAddr
  let l := asUsize len
  if a ≤ flash.length ∧ l ≤ flash.length - a then
    match memRead mem (asUsize base) l with
    | some bytes => some (writeBytes flash a bytes)
    | none => none
  else none

/-- Host function `hwGetPinValue` (main.rs lines 139-157):
`pins.lock().unwrap()[ind as usize] as i32`. -/
def hwGetPinValue (pins : List Bool) (ind : Int) : Option Int :=
  (pins[asUsize ind]?).map (fun b => if b then 1 else 0)

/-- Host function `hwSetPinValue` (main.rs lines 158-177):
`pins.lock().unwrap()[ind as usize] = val != 0`.  The explicit bounds test
is the `Vec` index-assignment check. -/
def hwSetPinValue (pins : List Bool) (ind val : Int) : Option (List Bool) :=
  if asUsize ind < pins.length then
    some (pins.set (asUsize ind) (val != 0))
  else none

/-- Modelled from the spec: the firmware's console-output state, which lives
inside the external wasm image, not in this repository's source.  Per spec
section 3 ("Console queues") the host polls the firmware for a device with
pending output (0 = none) and pops that device's next character; we model
this as the (nonzero) device id the firmware reports while output is
pending, together with the queue of pending character codes. -/
structure FwConsole where
  device : Int
  pending : List Nat

/-- Modelled from the spec: the firmware export `jshGetDeviceToTransmit` —
returns the none-sentinel 0 when no output is pending, else the id of the
device with output waiting. -/
def jshGetDeviceToTransmit (fw : FwConsole) : Int :=
  match fw.pending with
  | [] => 0
  | _ :: _ => fw.device

/-- Modelled from the spec: the firmware export `jshGetCharToTransmit` —
pops and returns the next pending character for the queried device. -/
def jshGetCharToTransmit (fw : FwConsole) : Nat × FwConsole :=
  match fw.pending with
  | [] => (0, fw)
  | c :: rest => (c, { fw with pending := rest })

/-- The host's console drain loop `js_handle_io` (main.rs lines 50-67):
```
loop {
    let device = get_device.call(store)?;
    if device == 0 { println!(); break Ok(()); }
    let ch = char::from_u32(get_char.call(store, device)? as _).unwrap();
    print!("{ch}");
}
```
Result: (the sequence of characters returned by `jshGetCharToTransmit`
in call order, the characters actually printed to stdout — those same
characters followed by the final `println!` newline, code 10 — and the
firmware state after the drain). -/
def jsHandleIo (fw : FwConsole) : List Nat × List Nat × FwConsole :=
  if h : jshGetDeviceToTransmit fw = 0 then
    ([], [10], fw)
  else
    have hdec : ((jshGetCharToTransmit fw).2).pending.length < fw.pending.length := by
      rcases hp : fw.pending with _ | ⟨c, rest⟩
      · exact absurd (by simp [jshGetDeviceToTransmit, hp]) h
      · simp [jshGetCharToTransmit, hp]
    let r := jsHandleIo (jshGetCharToTransmit fw).2
    ((jshGetCharToTransmit fw).1 :: r.1, (jshGetCharToTransmit fw).1 :: r.2.1, r.2.2)
termination_by fw.pending.length

/-- The host's console input injection `js_push_string` (main.rs
lines 261-273): for each byte `ch` of the input, in order, one call
`js_push_char.call(store, 21, *ch.borrow() as i32)` to the firmware export
`jshPushIOCharEvent`.  The value is the list of (device, char) argument
pairs of those calls, in call order. -/
def js_push_string (chars : List Nat) : List (Int × Int) :=
  match chars with
  | [] => []
  | ch :: rest => (21, (ch : Int)) :: js_push_string rest

/-- The packed-pixel extractor `get3` inside `draw_screen` (main.rs
lines 239-249):
```
fn get3(x: usize, buf: &[u8]) -> u8 {
    let bit = x * 3;
    let byte = bit >> 3;
    ((buf[byte] >> (bit & 7))
        | if (bit & 7) <= 5 { 0 } else { buf[byte + 1] << (8 - (bit & 7)) })
        & 7
}
```
`buf` holds `u8` values; the `u8` shift `buf[byte + 1] << _` truncates to
8 bits, hence the `% 256`.  `none` is the slice-index panic. -/
def get3 (x : Nat) (buf : List Nat) : Option Nat :=
  let bit := x * 3
  let byte := bit >>> 3
  match buf[byte]?,
      (if bit &&& 7 ≤ 5 then some 0
       else (buf[byte + 1]?).map (fun hi => (hi <<< (8 - (bit &&& 7))) % 256)) with
  | some lo, some carry => some (((lo >>> (bit &&& 7)) ||| carry) &&& 7)
  | _, _ => none

/-- The value of a row buffer read as one little-endian bit string
(byte `i` contributes bits `8*i .. 8*i+7`).  This is the reference
meaning of "3 bits per pixel, row-major, bit-packed across byte
boundaries" (spec sections 2 and 4.5), stated from the spec's words as
the comparison point for `get3`. -/
def rowValue : List Nat → Nat
  | [] => 0
  | b :: rest => b + 256 * rowValue rest

/-- Specification-side pixel extraction: pixel `x` of a row is the 3-bit
field starting at bit offset `3*x` of the row's bit string. -/
def pixelSpec (buf : List Nat) (x : Nat) : Nat :=
  (rowValue buf >>> (3 * x)) % 8

/-- One step of the `main` lifecycle (main.rs lines 275-291), used to
state the drain-ordering claims over the operation sequence `main`
actually issues. -/
inductive Op where
  | opInit
  | pinWatch (pin : Int)
  | drain
  | pushString (bytes : List Nat)
  | idle
  | drawScreen
deriving DecidableEq

/-- The byte string `main` injects: `b"console.log(17);LED1.set()\n"`
(main.rs line 280). -/
def mainInput : List Nat :=
  "console.log(17);LED1.set()\n".toList.map Char.toNat

/-- The body of `main`'s step loop (main.rs lines 282-287): each of the
`n` iterations calls `js_idle` then `js_handle_io`. -/
def tickLoop : Nat → List Op
  | 0 => []
  | n + 1 => Op.idle :: Op.drain :: tickLoop n

/-- The operation sequence issued by `main` (main.rs lines 275-291):
`js_init`, `js_send_pin_watch_event(BTN1)`, `js_handle_io`,
`js_push_string(b"console.log(17);LED1.set()\n")`, then ten iterations of
`js_idle` + `js_handle_io`, then `draw_screen`. -/
def mainOps : List Op :=
  [Op.opInit, Op.pinWatch 17, Op.drain, Op.pushString mainInput]
    ++ tickLoop 10 ++ [Op.drawScreen]

/-- Which lifecycle operations may produce firmware output (the claim's
list: init, idle-tick, inject-string, inject-pin-event). -/
def mayProduceOutput : Op → Bool
  | Op.opInit => true
  | Op.pinWatch _ => true
  | Op.pushString _ => true
  | Op.idle => true
  | Op.drain => false
  | Op.drawScreen => false

/-- The claim's temporal property over an operation trace: every
operation that may produce firmware output is immediately followed by a
console drain. -/
def alwaysDrainedAfter (tr : List Op) : Prop :=
  ∀ i, (hi : i < tr.length) →
    mayProduceOutput (tr.get ⟨i, hi⟩) = true → tr[i + 1]? = some Op.drain

/-- Resolution of a named export on the wasm instance
(`instance.exports.get_typed_function(store, name)`): succeeds exactly
when the instance exports `name` with the expected type; `ex` is the list
of names the instance exports with their expected signatures. -/
def getExport (ex : List String) (n : String) : Except String Unit :=
  if n ∈ ex then Except.ok () else Except.error n

/-- Sequencing of two fallible resolutions (`?` in the source). -/
def andThen (a b : Except String Unit) : Except String Unit :=
  match a with
  | Except.ok _ => b
  | Except.error e => Except.error e

/-- The export resolutions `main` performs while wiring the instance,
before any firmware entry point is called (main.rs lines 217-223):
`jsInit`, `jsIdle`, `jsSendPinWatchEvent`, `jsGfxGetPtr`. -/
def mainSetup (ex : List String) : Except String Unit :=
  andThen (getExport ex "jsInit")
    (andThen (getExport ex "jsIdle")
      (andThen (getExport ex "jsSendPinWatchEvent")
        (getExport ex "jsGfxGetPtr")))

/-- The export resolutions `js_handle_io` performs at the start of every
drain cycle (main.rs lines 51-56): `jshGetDeviceToTransmit`,
`jshGetCharToTransmit`. -/
def jsHandleIoSetup (ex : List String) : Except String Unit :=
  andThen (getExport ex "jshGetDeviceToTransmit")
    (getExport ex "jshGetCharToTransmit")

/-- The export resolution `js_push_string` performs on every call
(main.rs lines 266-268): `jshPushIOCharEvent`. -/
def jsPushStringSetup (ex : List String) : Except String Unit :=
  getExport ex "jshPushIOCharEvent"

/-- The initialization sequence of `main` through its initial console
drain (main.rs lines 212-278): wire the instance and resolve the four
lifecycle exports, call `jsInit` and `jsSendPinWatchEvent`, then run the
initial `js_handle_io`, which resolves the two output exports. -/
def initSequenceSetup (ex : List String) : Except String Unit :=
  andThen (mainSetup ex) (jsHandleIoSetup ex)

-- Sanity checks on tiny states.
example : hwFlashRead [1, 2, 3] 1 = some 2 := by decide
example : hwFlashRead [1, 2, 3] 3 = none := by decide
example : hwFlashRead [1, 2, 3] (-1) = none := by decide
example : hwFlashWritePtr [9, 8, 7] [0, 0, 0, 0] 1 0 2 = some [0, 9, 8, 0] := by decide
example : hwFlashWritePtr [9, 8, 7] [0, 0, 0, 0] 3 0 2 = none := by decide
example : hwFlashWritePtr [9, 8, 7] [0, 0, 0, 0] 0 2 2 = none := by decide
example : hwSetPinValue [false, false] 1 1 = some [false, true] := by decide
example : hwGetPinValue [false, true] 1 = some 1 := by decide
example : jsHandleIo ⟨1, [104, 105]⟩ = ([104, 105], [104, 105, 10], ⟨1, []⟩) := by
  simp [jsHandleIo, jshGetDeviceToTransmit, jshGetCharToTransmit]
example : js_push_string [104, 105] = [(21, 104), (21, 105)] := by decide

/-! ### Helper lemmas -/

theorem FLASH_SIZE_eq : FLASH_SIZE = 8388608 := by decide

theorem asUsize_ofNat (n : Nat) (h : n < 2 ^ 64) : asUsize (n : Int) = n := by
  unfold asUsize
  omega

theorem asUsize_eq (x : Int) (h1 : -(2 ^ 31) ≤ x) (h2 : x < 2 ^ 31) :
    asUsize x = (if 0 ≤ x then x else x + 2 ^ 64).toNat := by
  unfold asUsize
  split <;> omega

theorem length_writeBytes (bytes : List Nat) :
    ∀ (flash : List Nat) (addr : Nat),
      (writeBytes flash addr bytes).length = flash.length := by
  induction bytes with
  | nil => intro flash addr; rfl
  | cons b rest ih =>
    intro flash addr
    simp [writeBytes, ih]

theorem getElem?_writeBytes_lt (bytes : List Nat) :
    ∀ (flash : List Nat) (addr j : Nat), j < addr →
      (writeBytes flash addr bytes)[j]? = flash[j]? := by
  induction bytes with
  | nil => intro flash addr j _; rfl
  | cons b rest ih =>
    intro flash addr j hj
    rw [writeBytes, ih _ _ _ (by omega), List.getElem?_set_ne (by omega)]

theorem getElem?_writeBytes_in (bytes : List Nat) :
    ∀ (flash : List Nat) (addr k : Nat), k < bytes.length →
      addr + bytes.length ≤ flash.length →
      (writeBytes flash addr bytes)[addr + k]? = bytes[k]? := by
  induction bytes with
  | nil => intro flash addr k hk _; exact absurd hk (by simp)
  | cons b rest ih =>
    intro flash addr k hk hle
    match k with
    | 0 =>
      rw [writeBytes]
      simp only [Nat.add_zero]
      rw [getElem?_writeBytes_lt rest _ _ _ (by omega),
        List.getElem?_set_self (by simp at hle ⊢; omega),
        List.getElem?_cons_zero]
    | k' + 1 =>
      rw [writeBytes, show addr + (k' + 1) = (addr + 1) + k' by omega,
        ih _ _ _ (by simp at hk; omega) (by simp at hle ⊢; omega),
        List.getElem?_cons_succ]

theorem and_seven (n : Nat) : n &&& 7 = n % 8 := by
  have h : (7 : Nat) = 2 ^ 3 - 1 := rfl
  rw [h, Nat.and_pow_two_sub_one_eq_mod]

theorem shiftRight_three (n : Nat) : n >>> 3 = n / 8 := by
  rw [Nat.shiftRight_eq_div_pow]

theorem testBit_mod8 (y i : Nat) : (y % 8).testBit i = (decide (i < 3) && y.testBit i) := by
  rw [show (8 : Nat) = 2 ^ 3 from rfl, Nat.testBit_mod_two_pow]

theorem testBit_mod256 (y i : Nat) : (y % 256).testBit i = (decide (i < 8) && y.testBit i) := by
  rw [show (256 : Nat) = 2 ^ 8 from rfl, Nat.testBit_mod_two_pow]

theorem getD_of_lt (l : List Nat) (n : Nat) (h : n < l.length) :
    l.getD n 0 = l[n] := by
  rw [List.getD_eq_getElem?_getD, List.getElem?_eq_getElem h]
  rfl

theorem testBit_rowValue (buf : List Nat) (hb : ∀ b ∈ buf, b < 256) (n : Nat) :
    (rowValue buf).testBit n = (buf.getD (n / 8) 0).testBit (n % 8) := by
  induction buf generalizing n with
  | nil => simp [rowValue]
  | cons b rest ih =>
    have hb0 : b < 256 := hb b (List.mem_cons_self _ _)
    have hbr : ∀ y ∈ rest, y < 256 := fun y hy => hb y (List.mem_cons_of_mem _ hy)
    have h256 : rowValue (b :: rest) = 2 ^ 8 * rowValue rest + b := by
      rw [rowValue]; ring
    rw [h256, Nat.testBit_mul_pow_two_add _ (by omega : b < 2 ^ 8)]
    by_cases hn : n < 8
    · rw [if_pos hn, show n / 8 = 0 from by omega, show n % 8 = n from by omega]
      rfl
    · rw [if_neg hn, ih hbr (n - 8),
        show (n - 8) / 8 = n / 8 - 1 from by omega,
        show (n - 8) % 8 = n % 8 from by omega,
        show n / 8 = (n / 8 - 1) + 1 from by omega]
      rfl

theorem extract3_low (buf : List Nat) (hb : ∀ b ∈ buf, b < 256) (n : Nat)
    (h1 : n / 8 < buf.length) (h2 : n % 8 ≤ 5) :
    (buf[n / 8] >>> (n % 8)) % 8 = (rowValue buf >>> n) % 8 := by
  apply Nat.eq_of_testBit_eq
  intro i
  rw [testBit_mod8, testBit_mod8]
  by_cases hi : i < 3
  · simp only [hi, decide_True, Bool.true_and, Nat.testBit_shiftRight]
    rw [testBit_rowValue buf hb (n + i),
      show (n + i) / 8 = n / 8 from by omega,
      show (n + i) % 8 = n % 8 + i from by omega,
      getD_of_lt _ _ h1]
  · simp [hi]

theorem extract3_carry (buf : List Nat) (hb : ∀ b ∈ buf, b < 256) (n : Nat)
    (h1 : n / 8 + 1 < buf.length) (h2 : 5 < n % 8) :
    ((buf[n / 8] >>> (n % 8)) ||| ((buf[n / 8 + 1] <<< (8 - n % 8)) % 256)) % 8 =
      (rowValue buf >>> n) % 8 := by
  have hlo : buf[n / 8] < 256 := hb _ (List.getElem_mem _)
  apply Nat.eq_of_testBit_eq
  intro i
  rw [testBit_mod8, testBit_mod8]
  by_cases hi : i < 3
  · simp only [hi, decide_True, Bool.true_and, Nat.testBit_or,
      Nat.testBit_shiftRight, testBit_mod256, Nat.testBit_shiftLeft]
    rw [testBit_rowValue buf hb (n + i)]
    rcases Nat.lt_or_ge (n % 8 + i) 8 with hcase | hcase
    · -- the three bits do not reach the next byte at position i
      rw [show (n + i) / 8 = n / 8 from by omega,
        show (n + i) % 8 = n % 8 + i from by omega,
        getD_of_lt _ _ (by omega)]
      have hge : ¬(8 - n % 8 ≤ i) := by omega
      simp [hge, hi, Nat.lt_trans hi (by omega : (3 : Nat) < 8)]
    · -- position i straddles into the next byte
      rw [show (n + i) / 8 = n / 8 + 1 from by omega,
        show (n + i) % 8 = n % 8 + i - 8 from by omega,
        getD_of_lt _ _ h1]
      have h256le : (256 : Nat) ≤ 2 ^ (n % 8 + i) := by
        rw [show (256 : Nat) = 2 ^ 8 from rfl]
        exact Nat.pow_le_pow_right (by omega) (by omega)
      have hfirst : buf[n / 8].testBit (n % 8 + i) = false :=
        Nat.testBit_lt_two_pow (Nat.lt_of_lt_of_le hlo h256le)
      have hge : 8 - n % 8 ≤ i := by omega
      have hi8 : i < 8 := by omega
      rw [hfirst]
      simp only [Bool.false_or, hi8, decide_True, Bool.true_and, hge,
        ge_iff_le, decide_True, Bool.true_and]
      rw [show i - (8 - n % 8) = n % 8 + i - 8 from by omega]
  · simp [hi]

/-- Claim C7: for every 66-byte row buffer and pixel index `x < 176`,
`get3` extracts exactly the 3-bit field that starts at bit offset `3*x`
of the row's packed little-endian bit string — the low part
`buf[3x/8] >> (3x mod 8)` OR-ed with carry bits `buf[3x/8+1] << (8 - (3x mod 8))`
exactly when `3x mod 8 > 5`, masked to 3 bits — so it is correct at
pixel 0, pixel 175, and every byte-boundary-straddling position. -/
theorem get3_correct (buf : List Nat) (hlen : buf.length = 66)
    (hb : ∀ b ∈ buf, b < 256) (x : Nat) (hx : x < 176) :
    get3 x buf = some (pixelSpec buf x) := by
  unfold get3
  simp only [shiftRight_three, and_seven]
  have h1 : x * 3 / 8 < buf.length := by rw [hlen]; omega
  rw [List.getElem?_eq_getElem h1]
  by_cases hr : x * 3 % 8 ≤ 5
  · rw [if_pos hr]
    show some ((buf[x * 3 / 8] >>> (x * 3 % 8) ||| 0) % 8) = _
    rw [Nat.or_zero, pixelSpec, Nat.mul_comm 3 x,
      extract3_low buf hb (x * 3) h1 hr]
  · rw [if_neg hr]
    have h2 : x * 3 / 8 + 1 < buf.length := by rw [hlen]; omega
    rw [List.getElem?_eq_getElem h2]
    show some ((buf[x * 3 / 8] >>> (x * 3 % 8) |||
      (buf[x * 3 / 8 + 1] <<< (8 - x * 3 % 8)) % 256) % 8) = _
    rw [pixelSpec, Nat.mul_comm 3 x,
      extract3_carry buf hb (x * 3) h2 (by omega)]

/-! ### C1: flash erased state and write/read round trip -/

/-- Claim C1: for every index `i` in `[0, 2^23)`, `hwFlashRead` on the
freshly constructed flash returns the erased byte 0xFF; and after an
in-bounds `hwFlashWritePtr(off, ptr, len)` while the sandbox memory holds
bytes `B = mem[ptr..ptr+len]`, `hwFlashRead(off + k)` returns `B[k]` for
every `k < len`. -/
theorem flash_erased_and_write_read :
    (∀ i : Nat, i < FLASH_SIZE → hwFlashRead initFlash (i : Int) = some 255) ∧
    (∀ (mem flash : List Nat) (off ptr len : Nat),
      flash.length = FLASH_SIZE → mem.length ≤ 2 ^ 32 →
      off + len ≤ FLASH_SIZE → ptr + len ≤ mem.length →
      ∃ flash2,
        hwFlashWritePtr mem flash ((off : Nat) : Int) ((ptr : Nat) : Int)
            ((len : Nat) : Int) = some flash2 ∧
        ∀ k : Nat, k < len →
          hwFlashRead flash2 ((off + k : Nat) : Int) =
            ((mem.drop ptr).take len)[k]?) := by
  constructor
  · intro i hi
    unfold hwFlashRead initFlash
    rw [asUsize_ofNat _ (by rw [FLASH_SIZE_eq] at hi; omega),
      List.getElem?_replicate_of_lt hi]
  · intro mem flash off ptr len hflash hmem hoff hptr
    have hoff' : asUsize ((off : Nat) : Int) = off :=
      asUsize_ofNat _ (by rw [FLASH_SIZE_eq] at hoff; omega)
    have hlen' : asUsize ((len : Nat) : Int) = len :=
      asUsize_ofNat _ (by rw [FLASH_SIZE_eq] at hoff; omega)
    have hptr' : asUsize ((ptr : Nat) : Int) = ptr :=
      asUsize_ofNat _ (by omega)
    have hB : ((mem.drop ptr).take len).length = len := by
      simp [List.length_take, List.length_drop]
      omega
    refine ⟨writeBytes flash off ((mem.drop ptr).take len), ?_, ?_⟩
    · unfold hwFlashWritePtr memRead
      rw [hoff', hlen', hptr', if_pos (by omega), if_pos hptr]
    · intro k hk
      unfold hwFlashRead
      rw [asUsize_ofNat _ (by rw [FLASH_SIZE_eq] at hoff; omega),
        getElem?_writeBytes_in _ _ _ _ (by omega) (by omega)]

/-- Witness for C1 at concrete inputs. -/
theorem flash_erased_and_write_read_witness :
    hwFlashRead initFlash ((3 : Nat) : Int) = some 255 ∧
    ∃ flash2,
      hwFlashWritePtr [9, 8] initFlash ((5 : Nat) : Int) ((1 : Nat) : Int)
          ((1 : Nat) : Int) = some flash2 ∧
      ∀ k : Nat, k < 1 →
        hwFlashRead flash2 ((5 + k : Nat) : Int) =
          (([9, 8].drop 1).take 1)[k]? :=
  ⟨flash_erased_and_write_read.1 3 (by decide),
   flash_erased_and_write_read.2 [9, 8] initFlash 5 1 1 (by simp [initFlash])
     (by decide) (by decide) (by decide)⟩
example : get3 0 [0b101, 0, 0] = some 5 := by decide
example : get3 2 [0b11000000, 0b1, 0] = some 7 := by decide
example : get3 0 [] = none := by decide
example : mainOps.length = 25 := by decide
example : getExport ["a"] "a" = Except.ok () := rfl
example : initSequenceSetup ["jsInit", "jsIdle", "jsSendPinWatchEvent",
  "jsGfxGetPtr", "jshGetDeviceToTransmit", "jshGetCharToTransmit"] = Except.ok () := rfl

/-! ### C2, C3, C10: console drain and input injection -/

theorem jsHandleIo_run (d : Int) (hd : d ≠ 0) :
    ∀ l : List Nat, jsHandleIo ⟨d, l⟩ = (l, l ++ [10], ⟨d, []⟩) := by
  intro l
  induction l with
  | nil => rw [jsHandleIo]; simp [jshGetDeviceToTransmit]
  | cons c rest ih =>
    rw [jsHandleIo]
    simp only [jshGetDeviceToTransmit, jshGetCharToTransmit, hd, dite_false]
    simp [ih, hd]

theorem jsHandleIo_dead (l : List Nat) :
    jsHandleIo ⟨0, l⟩ = ([], [10], ⟨0, l⟩) := by
  cases l <;> (rw [jsHandleIo]; simp [jshGetDeviceToTransmit])

/-- Claim C2: when the firmware reports a nonzero device while output is
pending (so the device query eventually returns the none-sentinel 0), the
drain loop terminates and the characters it collects are exactly the
firmware's pending output, in order; the drain empties the pending queue,
so a second drain collects nothing. -/
theorem drain_cycle_exact (fw : FwConsole) (hd : fw.device ≠ 0) :
    (jsHandleIo fw).1 = fw.pending ∧
    ((jsHandleIo fw).2.2).pending = [] ∧
    (jsHandleIo ((jsHandleIo fw).2.2)).1 = [] := by
  obtain ⟨d, l⟩ := fw
  rw [jsHandleIo_run d hd l]
  simp [jsHandleIo_run d hd]

/-- Witness for C2 at a concrete firmware state. -/
theorem drain_cycle_exact_witness :
    (jsHandleIo ⟨1, [104, 105]⟩).1 = [104, 105] ∧
    ((jsHandleIo ⟨1, [104, 105]⟩).2.2).pending = [] ∧
    (jsHandleIo ((jsHandleIo ⟨1, [104, 105]⟩).2.2)).1 = [] :=
  drain_cycle_exact ⟨1, [104, 105]⟩ (by decide)

/-- Claim C10: every drain cycle prints, after the drained characters,
exactly one extra newline produced by the host's `println!()` at the
none-sentinel — also when no characters were pending (then the output is
just the newline). -/
theorem drain_prints_trailing_newline (fw : FwConsole) :
    (jsHandleIo fw).2.1 = (jsHandleIo fw).1 ++ [10] := by
  obtain ⟨d, l⟩ := fw
  by_cases hd : d = 0
  · subst hd
    rw [jsHandleIo_dead]
    rfl
  · rw [jsHandleIo_run d hd l]

/-- Claim C3: pushing a console input string of N bytes issues exactly N
calls to `jshPushIOCharEvent`, one per byte in the original order, each
tagged with device 21 (the interactive console) and carrying that byte's
character code. -/
theorem push_string_calls (chars : List Nat) :
    (js_push_string chars).length = chars.length ∧
    ∀ k : Nat, (js_push_string chars)[k]? =
      (chars[k]?).map (fun ch : Nat => ((21 : Int), (ch : Int))) := by
  induction chars with
  | nil => exact ⟨rfl, fun k => by cases k <;> rfl⟩
  | cons c rest ih =>
    refine ⟨by simpa [js_push_string] using ih.1, fun k => ?_⟩
    cases k with
    | zero => simp [js_push_string]
    | succ k' =>
      simp only [js_push_string, List.getElem?_cons_succ]
      exact ih.2 k'

/-! ### C4: out-of-bounds accesses fault -/

/-- Claim C4: every call to `hwFlashRead`, `hwFlashWritePtr`,
`hwGetPinValue` or `hwSetPinValue` with an index, offset or offset+length
outside the valid range (flash indices in `[0, 2^23)`, pin indices in
`[0, 48)`) faults: the embedding returns `none` (the panic/trap, raised
before any peripheral byte is modified), never a wrapped or truncated
access. -/
theorem oob_access_faults :
    (∀ (flash : List Nat) (i : Int), flash.length = FLASH_SIZE →
      -(2 ^ 31) ≤ i → i < 2 ^ 31 → ¬(0 ≤ i ∧ i < ((FLASH_SIZE : Nat) : Int)) →
      hwFlashRead flash i = none) ∧
    (∀ (mem flash : List Nat) (off ptr len : Int), flash.length = FLASH_SIZE →
      mem.length ≤ 2 ^ 32 →
      -(2 ^ 31) ≤ off → off < 2 ^ 31 → -(2 ^ 31) ≤ ptr → ptr < 2 ^ 31 →
      -(2 ^ 31) ≤ len → len < 2 ^ 31 →
      ¬(0 ≤ off ∧ 0 ≤ len ∧ off + len ≤ ((FLASH_SIZE : Nat) : Int) ∧
        0 ≤ ptr ∧ ptr + len ≤ (mem.length : Int)) →
      hwFlashWritePtr mem flash off ptr len = none) ∧
    (∀ (pins : List Bool) (i : Int), pins.length = PIN_COUNT →
      -(2 ^ 31) ≤ i → i < 2 ^ 31 → ¬(0 ≤ i ∧ i < ((PIN_COUNT : Nat) : Int)) →
      hwGetPinValue pins i = none) ∧
    (∀ (pins : List Bool) (i v : Int), pins.length = PIN_COUNT →
      -(2 ^ 31) ≤ i → i < 2 ^ 31 → ¬(0 ≤ i ∧ i < ((PIN_COUNT : Nat) : Int)) →
      hwSetPinValue pins i v = none) := by
  refine ⟨?_, ?_, ?_, ?_⟩
  · intro flash i hlen h1 h2 hnot
    unfold hwFlashRead
    apply List.getElem?_eq_none
    have ha := asUsize_eq i h1 h2
    rw [hlen, FLASH_SIZE_eq]
    rw [FLASH_SIZE_eq] at hnot
    split at ha <;> omega
  · intro mem flash off ptr len hlen hmem ho1 ho2 hp1 hp2 hl1 hl2 hnot
    have ha := asUsize_eq off ho1 ho2
    have hl := asUsize_eq len hl1 hl2
    have hb := asUsize_eq ptr hp1 hp2
    rw [FLASH_SIZE_eq] at hlen hnot
    simp only [hwFlashWritePtr, memRead]
    by_cases hc : asUsize off ≤ flash.length ∧
        asUsize len ≤ flash.length - asUsize off
    · rw [if_pos hc,
        if_neg (by split at ha <;> split at hl <;> split at hb <;> omega)]
    · rw [if_neg hc]
  · intro pins i hlen h1 h2 hnot
    unfold hwGetPinValue
    rw [List.getElem?_eq_none (by
      have ha := asUsize_eq i h1 h2
      rw [hlen]
      unfold PIN_COUNT
      unfold PIN_COUNT at hnot
      split at ha <;> omega)]
    rfl
  · intro pins i v hlen h1 h2 hnot
    unfold hwSetPinValue
    rw [if_neg (by
      have ha := asUsize_eq i h1 h2
      rw [hlen]
      unfold PIN_COUNT
      unfold PIN_COUNT at hnot
      split at ha <;> omega)]

/-- Witness for C4 at concrete out-of-range inputs. -/
theorem oob_access_faults_witness :
    hwFlashRead initFlash 8388608 = none ∧
    hwFlashWritePtr [] initFlash 0 0 1 = none ∧
    hwGetPinValue initPins 48 = none ∧
    hwSetPinValue initPins (-1) 1 = none :=
  ⟨oob_access_faults.1 initFlash 8388608 (by simp [initFlash])
      (by decide) (by decide) (by decide),
   oob_access_faults.2.1 [] initFlash 0 0 1 (by simp [initFlash])
      (by decide) (by decide) (by decide) (by decide) (by decide)
      (by decide) (by decide) (by decide),
   oob_access_faults.2.2.1 initPins 48 (by decide)
      (by decide) (by decide) (by decide),
   oob_access_faults.2.2.2 initPins (-1) 1 (by decide)
      (by decide) (by decide) (by decide)⟩

/-! ### C5, C6: pin bank -/

/-- Claim C5: immediately after construction, every pin in `[0, 48)` reads
low except the button pin `BTN1 = 17`, which reads high (released). -/
theorem pins_after_construction :
    (∀ i : Nat, i < PIN_COUNT → i ≠ BTN1 →
      hwGetPinValue initPins ((i : Nat) : Int) = some 0) ∧
    hwGetPinValue initPins ((BTN1 : Nat) : Int) = some 1 := by
  constructor
  · intro i hi hne
    unfold hwGetPinValue initPins
    rw [asUsize_ofNat _ (by unfold PIN_COUNT at hi; omega),
      List.getElem?_set_ne (Ne.symm hne),
      List.getElem?_replicate_of_lt hi]
    rfl
  · unfold hwGetPinValue initPins
    rw [asUsize_ofNat _ (by decide),
      List.getElem?_set_self (by rw [List.length_replicate]; decide)]
    rfl

/-- Witness for C5 at concrete pins. -/
theorem pins_after_construction_witness :
    hwGetPinValue initPins ((3 : Nat) : Int) = some 0 ∧
    hwGetPinValue initPins ((BTN1 : Nat) : Int) = some 1 :=
  ⟨pins_after_construction.1 3 (by decide) (by decide),
   pins_after_construction.2⟩

/-- Claim C6: for every valid pin index `i < 48` and boolean `v`, setting
pin `i` to `v` and immediately reading it back returns `v` (booleans cross
the wasm boundary as `i32` 0/1). -/
theorem pin_set_get_roundtrip (pins : List Bool) (i : Nat) (v : Bool)
    (hlen : pins.length = PIN_COUNT) (hi : i < PIN_COUNT) :
    (hwSetPinValue pins ((i : Nat) : Int) (if v then 1 else 0)).bind
      (fun p => hwGetPinValue p ((i : Nat) : Int)) =
      some (if v then 1 else 0) := by
  have hi' : asUsize ((i : Nat) : Int) = i := by
    unfold PIN_COUNT at hi
    exact asUsize_ofNat _ (by omega)
  unfold PIN_COUNT at hlen hi
  unfold hwSetPinValue
  rw [hi', if_pos (by omega)]
  show hwGetPinValue _ _ = _
  unfold hwGetPinValue
  rw [hi', List.getElem?_set_self (by omega)]
  cases v <;> rfl

/-- Witness for C6 at a concrete pin and value. -/
theorem pin_set_get_roundtrip_witness :
    (hwSetPinValue initPins ((5 : Nat) : Int) (if true then 1 else 0)).bind
      (fun p => hwGetPinValue p ((5 : Nat) : Int)) =
      some (if true then 1 else 0) :=
  pin_set_get_roundtrip initPins 5 true (by decide) (by decide)

/-- Witness for C7 at a concrete row buffer and the straddling pixel 173,
plus the edge pixels 0 and 175. -/
theorem get3_correct_witness :
    get3 173 ((List.range 66).map (fun i => (i * 37) % 256)) =
      some (pixelSpec ((List.range 66).map (fun i => (i * 37) % 256)) 173) ∧
    get3 0 ((List.range 66).map (fun i => (i * 37) % 256)) =
      some (pixelSpec ((List.range 66).map (fun i => (i * 37) % 256)) 0) ∧
    get3 175 ((List.range 66).map (fun i => (i * 37) % 256)) =
      some (pixelSpec ((List.range 66).map (fun i => (i * 37) % 256)) 175) :=
  ⟨get3_correct _ (by decide) (by decide) 173 (by decide),
   get3_correct _ (by decide) (by decide) 0 (by decide),
   get3_correct _ (by decide) (by decide) 175 (by decide)⟩

/-! ### C8: drain ordering in the main lifecycle -/

/-- Claim C8 counterexample: in `main`'s actual operation trace the string
injection at index 3 is immediately followed by the first `js_idle` tick,
not by a drain (and `js_init` at index 0 is followed by the pin-watch
registration, not by a drain), so "every operation that may produce
firmware output is immediately followed by one console-drain cycle" is
false of `mainOps`. -/
theorem main_not_always_drained : ¬ alwaysDrainedAfter mainOps := by
  intro h
  exact absurd (h 3 (by decide) (by decide)) (by decide)

/-- Claim C8 amended: in `main`, every `js_idle` tick is immediately
followed by one console drain, and output-producing operations stay in
issue order; but `js_init` is followed by the pin-watch registration and
only then by the single initial drain, and the injected string is not
followed by a drain of its own — the next drain comes only after the
first idle tick. -/
theorem main_drain_discipline :
    (∀ i, (hi : i < mainOps.length) → mainOps.get ⟨i, hi⟩ = Op.idle →
      mainOps[i + 1]? = some Op.drain) ∧
    mainOps.take 4 =
      [Op.opInit, Op.pinWatch 17, Op.drain, Op.pushString mainInput] ∧
    mainOps[4]? = some Op.idle ∧ mainOps[5]? = some Op.drain := by
  exact ⟨by decide, by decide, by decide, by decide⟩

/-- Witness for the amended C8 at a concrete trace position. -/
theorem main_drain_discipline_witness : mainOps[5]? = some Op.drain :=
  main_drain_discipline.1 4 (by decide) (by decide)

/-! ### C9: export resolution failures -/

theorem andThen_ok (a b : Except String Unit) :
    andThen a b = Except.ok () ↔ a = Except.ok () ∧ b = Except.ok () := by
  cases a with
  | ok u => cases u; simp [andThen]
  | error e => simp [andThen]

theorem getExport_ok (ex : List String) (n : String) :
    getExport ex n = Except.ok () ↔ n ∈ ex := by
  unfold getExport
  split <;> simp [*]

/-- Claim C9 counterexample: with every export present except
`jshPushIOCharEvent`, the initialization sequence — instance wiring,
lifecycle-export resolution, `jsInit`, pin watch, and the initial console
drain — succeeds, even though a required console entry point is missing;
the failure only surfaces later, at the first `js_push_string`. -/
theorem missing_push_export_passes_initialization :
    initSequenceSetup ["jsInit", "jsIdle", "jsSendPinWatchEvent",
        "jsGfxGetPtr", "jshGetDeviceToTransmit", "jshGetCharToTransmit"] =
      Except.ok () ∧
    "jshPushIOCharEvent" ∉ (["jsInit", "jsIdle", "jsSendPinWatchEvent",
        "jsGfxGetPtr", "jshGetDeviceToTransmit", "jshGetCharToTransmit"] :
        List String) ∧
    jsPushStringSetup ["jsInit", "jsIdle", "jsSendPinWatchEvent",
        "jsGfxGetPtr", "jshGetDeviceToTransmit", "jshGetCharToTransmit"] =
      Except.error "jshPushIOCharEvent" :=
  ⟨rfl, by decide, rfl⟩

/-- Claim C9 amended: a missing lifecycle export (`jsInit`, `jsIdle`,
`jsSendPinWatchEvent`, `jsGfxGetPtr`) makes `main` fail before any
firmware entry point is called; a missing `jshGetDeviceToTransmit` or
`jshGetCharToTransmit` makes the initialization sequence fail loudly at
its initial console drain; a missing `jshPushIOCharEvent` does not fail
construction or initialization but fails loudly at the first string
injection.  No missing export is silently ignored. -/
theorem export_resolution_faults (ex : List String) :
    (mainSetup ex = Except.ok () ↔
      "jsInit" ∈ ex ∧ "jsIdle" ∈ ex ∧ "jsSendPinWatchEvent" ∈ ex ∧
      "jsGfxGetPtr" ∈ ex) ∧
    (jsHandleIoSetup ex = Except.ok () ↔
      "jshGetDeviceToTransmit" ∈ ex ∧ "jshGetCharToTransmit" ∈ ex) ∧
    (jsPushStringSetup ex = Except.ok () ↔ "jshPushIOCharEvent" ∈ ex) ∧
    (initSequenceSetup ex = Except.ok () ↔
      mainSetup ex = Except.ok () ∧ jsHandleIoSetup ex = Except.ok ()) := by
  refine ⟨?_, ?_, ?_, ?_⟩ <;>
    simp [mainSetup, jsHandleIoSetup, jsPushStringSetup, initSequenceSetup,
      andThen_ok, getExport_ok, and_assoc]
